import Mathlib

/-!
Verification development for the `agents-observability` repository.

The repository wires LLM-agent stages into linear workflow graphs using the
`agent_framework` orchestration engine.  Two pipelines are in scope:

* `CustomerDataAgent -> RiskAnalyserAgent -> FraudAlertAgent`
  (production-ready-observability/workflows/workflow.py)
* `ResearcherAgentV2 -> WriterAgentV2 -> ReviewerAgentV2`
  (from-zero-to-hero/orchestration/demo/sequential_agents.py)

The stage handlers, the response models, the risk-score parsing logic and the
event-stream consuming loops are translated directly from the Python source.
The orchestration engine itself (`WorkflowBuilder`, `run_stream`) lives in the
external `agent_framework` package whose code is not part of the repository;
those parts are modelled from the repository's specification and are marked
`Modelled from the spec:` in their doc comments.
-/

namespace AgentsObs

/-! ## String containment helper

Python's `in` operator on strings and the f-string error messages are modelled
over `List Char`.  `listStarts s p` says the pattern `p` is an initial segment
of `s`; `listHasSub p s` says `p` occurs contiguously somewhere inside `s`. -/

def listStarts : List Char → List Char → Bool
  | _, [] => true
  | [], _ :: _ => false
  | c :: s, p :: ps => c == p && listStarts s ps

def listHasSub (p : List Char) : List Char → Bool
  | [] => listStarts [] p
  | c :: s => listStarts (c :: s) p || listHasSub p s

/-- Python's `pat in s` for strings: `pat` occurs contiguously in `s`. -/
def strContains (s pat : String) : Bool :=
  listHasSub pat.data s.data

theorem listStarts_append_self (p t : List Char) : listStarts (p ++ t) p = true := by
  induction p with
  | nil => cases t <;> rfl
  | cons c ps ih => simp [listStarts, ih]

theorem listHasSub_append_self (s p : List Char) : listHasSub p (s ++ p) = true := by
  induction s with
  | nil =>
      cases p with
      | nil => rfl
      | cons c ps =>
          have h := listStarts_append_self (c :: ps) []
          rw [List.append_nil] at h
          simp [listHasSub, h]
  | cons a s ih => simp [listHasSub, ih]

theorem string_data_append (s t : String) : (s ++ t).data = s.data ++ t.data := by
  cases s; cases t; rfl

/-- The error message `"Error: " ++ e` built on the exception path contains the
exception text `e` as a substring. -/
theorem strContains_error_message (e : String) :
    strContains ("Error: " ++ e) e = true := by
  unfold strContains
  rw [string_data_append]
  exact listHasSub_append_self _ _

/-! ## Request/Response models (workflow.py lines 87-127)

The pydantic models carry exactly these fields.  `float` fields are inert for
every claim in scope; they are modelled with `Rat` (exact arithmetic), which is
adequate because no claim examines floating-point rounding. -/

structure AnalysisRequest where
  transaction_id : String
  customer_id : String
  amount : Option Rat
  currency : Option String
  deriving DecidableEq, Repr

structure CustomerDataResponse where
  customer_id : String
  transaction_id : String
  analysis : String
  status : String
  amount : Option Rat
  currency : Option String
  deriving DecidableEq, Repr

structure RiskAnalysisResponse where
  transaction_id : String
  customer_id : String
  risk_analysis : String
  risk_score : Int
  risk_level : String
  recommendation : String
  status : String
  amount : Option Rat
  currency : Option String
  model_confidence : Option Rat
  deriving DecidableEq, Repr

structure FraudAlertResponse where
  transaction_id : String
  customer_id : String
  alert_response : String
  alert_created : Bool
  workflow_status : String
  risk_score : Int
  risk_level : String
  deriving DecidableEq, Repr

/-! ## Handler effects

A stage handler interacts with its `WorkflowContext` through exactly two
primitives: `ctx.send_message` (emit a successor envelope, context type
`WorkflowContext[T]`) and `ctx.yield_output` (record the terminal payload,
context type `WorkflowContext[Never, T]`).  A handler invocation is modelled as
the list of context calls it performs, in order.  `Empty` in one of the two
slots mirrors Python's `Never`: such a call cannot be constructed. -/

inductive HandlerCall (σ ω : Type) where
  | sendMessage (m : σ)
  | yieldOutput (o : ω)
  deriving DecidableEq

/-- Outcome of `await self.agent.run([...])` followed by the rest of the `try`
block: either the reply text of the agent (the body reaches the final context
call) or the text of the exception that was raised. -/
abbrev AgentRun := Except String String

/-! ## Risk-score parsing (workflow.py lines 287-318)

The Python code runs six `re.search` patterns over `risk_analysis.lower()`
taking the first match whose captured integer lies in `[0, 100]`, then falls
back to keyword searches.  The regex engine is Python's standard library;
its observable result per pattern is the captured digit group (`\d{1,3}`,
hence a natural number) or no match, and for the keyword fallbacks a boolean.
`RegexMatches` records those observables; all theorems quantify over every
possible value, so they cover every reply text. -/

structure RegexMatches where
  /-- For each of the six score patterns, in order: the value of the first
  captured digit group `\d{1,3}` of `re.search` on the lowered text, if any. -/
  scoreCaptures : List (Option Nat)
  /-- Does `\b(high|critical|severe)\s*(risk)?` match the lowered text? -/
  hasHighKw : Bool
  /-- Does `\b(medium|moderate)\s*(risk)?` match the lowered text? -/
  hasMediumKw : Bool
  /-- Does `\b(low|minimal)\s*(risk)?` match the lowered text? -/
  hasLowKw : Bool
  deriving DecidableEq, Repr

/-- The `for pattern in patterns` loop: accept the first captured score `s`
with `0 <= s <= 100` (the lower bound is automatic for a digit capture);
an out-of-range capture is skipped and the loop continues. -/
def firstAcceptedScore : List (Option Nat) → Option Nat
  | [] => none
  | none :: rest => firstAcceptedScore rest
  | some s :: rest => if s ≤ 100 then some s else firstAcceptedScore rest

/-- The keyword fallback chain (workflow.py lines 307-315). -/
def fallbackScore (rm : RegexMatches) : Nat :=
  if rm.hasHighKw then 85
  else if rm.hasMediumKw then 55
  else if rm.hasLowKw then 25
  else 50

/-- `risk_score` as computed on the success path of
`RiskAnalyserAgentExecutor.handle`. -/
def parseRiskScore (rm : RegexMatches) : Nat :=
  match firstAcceptedScore rm.scoreCaptures with
  | some s => s
  | none => fallbackScore rm

/-- `risk_level` (workflow.py line 317). -/
def risk_level_of (risk_score : Int) : String :=
  if risk_score ≥ 75 then "HIGH" else (if risk_score ≥ 40 then "MEDIUM" else "LOW")

/-- `recommendation` (workflow.py line 318). -/
def recommendation_of (risk_level : String) : String :=
  if risk_level = "HIGH" then "BLOCK"
  else (if risk_level = "MEDIUM" then "INVESTIGATE" else "ALLOW")

/-- `severity` (workflow.py lines 412-414, in `FraudAlertAgentExecutor.handle`). -/
def severity_of (risk_score : Int) : String :=
  if risk_score ≥ 90 then "CRITICAL"
  else (if risk_score ≥ 75 then "HIGH"
  else (if risk_score ≥ 50 then "MEDIUM" else "LOW"))

/-- `confidence_score = abs(risk_score - 50) / 50` (workflow.py line 329). -/
def confidence_of (risk_score : Int) : Rat :=
  ((risk_score - 50).natAbs : Rat) / 50

namespace CustomerDataAgentExecutor

/-- `CustomerDataAgentExecutor.handle` (workflow.py lines 182-239): telemetry
calls dropped, the try block reduced to its observable outcome `run`.  On
success one `CustomerDataResponse` with `status = "SUCCESS"` is sent; on
exception one with `status = "ERROR"` and `analysis = "Error: " ++ e`. -/
def handle (request : AnalysisRequest) (run : AgentRun) :
    List (HandlerCall CustomerDataResponse Empty) :=
  match run with
  | .ok analysis =>
      [.sendMessage {
        customer_id := request.customer_id
        transaction_id := request.transaction_id
        analysis := analysis
        status := "SUCCESS"
        amount := request.amount
        currency := request.currency }]
  | .error e =>
      [.sendMessage {
        customer_id := request.customer_id
        transaction_id := request.transaction_id
        analysis := "Error: " ++ e
        status := "ERROR"
        amount := none
        currency := some "USD" }]

end CustomerDataAgentExecutor

namespace RiskAnalyserAgentExecutor

/-- `RiskAnalyserAgentExecutor.handle` (workflow.py lines 251-379).  On the
success path the reply text and its regex observables determine `risk_score`,
`risk_level`, `recommendation` and `model_confidence`; on the exception path
one error envelope is sent (lines 368-379). -/
def handle (customer_response : CustomerDataResponse)
    (run : Except String (String × RegexMatches)) :
    List (HandlerCall RiskAnalysisResponse Empty) :=
  match run with
  | .ok (risk_analysis, rm) =>
      let risk_score : Int := (parseRiskScore rm : Int)
      let risk_level := risk_level_of risk_score
      let recommendation := recommendation_of risk_level
      [.sendMessage {
        transaction_id := customer_response.transaction_id
        customer_id := customer_response.customer_id
        risk_analysis := risk_analysis
        risk_score := risk_score
        risk_level := risk_level
        recommendation := recommendation
        status := "SUCCESS"
        amount := customer_response.amount
        currency := customer_response.currency
        model_confidence := some (confidence_of risk_score) }]
  | .error e =>
      [.sendMessage {
        transaction_id := customer_response.transaction_id
        customer_id := customer_response.customer_id
        risk_analysis := "Error: " ++ e
        risk_score := 0
        risk_level := "UNKNOWN"
        recommendation := "INVESTIGATE"
        status := "ERROR"
        amount := none
        currency := some "USD"
        model_confidence := none }]

end RiskAnalyserAgentExecutor

namespace FraudAlertAgentExecutor

/-- `alert_created` (workflow.py line 437): the lowered reply contains
`"alert created"`, or the incoming risk score is at least 40. -/
def alert_created_of (alert_response : String) (risk_score : Int) : Bool :=
  strContains alert_response.toLower "alert created" || risk_score ≥ 40

/-- `FraudAlertAgentExecutor.handle` (workflow.py lines 391-501).  The context
has type `WorkflowContext[Never, FraudAlertResponse]`, so the only available
primitive is `yield_output`; both paths call it exactly once. -/
def handle (risk_response : RiskAnalysisResponse) (run : AgentRun) :
    List (HandlerCall Empty FraudAlertResponse) :=
  match run with
  | .ok alert_response =>
      [.yieldOutput {
        transaction_id := risk_response.transaction_id
        customer_id := risk_response.customer_id
        alert_response := alert_response
        alert_created := alert_created_of alert_response risk_response.risk_score
        workflow_status := "SUCCESS"
        risk_score := risk_response.risk_score
        risk_level := risk_response.risk_level }]
  | .error e =>
      [.yieldOutput {
        transaction_id := risk_response.transaction_id
        customer_id := risk_response.customer_id
        alert_response := "Error: " ++ e
        alert_created := false
        workflow_status := "ERROR"
        risk_score := risk_response.risk_score
        risk_level := risk_response.risk_level }]

end FraudAlertAgentExecutor

/-- Every accepted regex capture lies in `[0, 100]`. -/
theorem firstAcceptedScore_le (caps : List (Option Nat)) (s : Nat)
    (h : firstAcceptedScore caps = some s) : s ≤ 100 := by
  induction caps with
  | nil => simp [firstAcceptedScore] at h
  | cons c rest ih =>
      cases c with
      | none => exact ih (by simpa [firstAcceptedScore] using h)
      | some v =>
          by_cases hv : v ≤ 100
          · simp [firstAcceptedScore, hv] at h
            exact h ▸ hv
          · exact ih (by simpa [firstAcceptedScore, hv] using h)

/-- The parsed risk score always lies in `[0, 100]`. -/
theorem parseRiskScore_le (rm : RegexMatches) : parseRiskScore rm ≤ 100 := by
  unfold parseRiskScore
  cases h : firstAcceptedScore rm.scoreCaptures with
  | none =>
      unfold fallbackScore
      by_cases h1 : rm.hasHighKw <;> by_cases h2 : rm.hasMediumKw <;>
        by_cases h3 : rm.hasLowKw <;> simp [h1, h2, h3]
  | some s => exact firstAcceptedScore_le _ _ h

/-! ## The orchestration engine

Modelled from the spec: the `agent_framework` engine (`WorkflowBuilder.build`,
`Workflow.run_stream`) is an external package whose source is not part of this
repository; its Run/Scheduler, event stream and builder are reconstructed here
from sections 3, 4.2, 4.3, 7 and 8 of the specification. -/

/-- Observable run states (spec section 3, RunState; `INITIALIZING` is an
internal transition and never observable, spec section 4.3). -/
inductive RunStateM where
  | running
  | completed
  | failed
  deriving DecidableEq, Repr

/-- Modelled from the spec: an Event is a tagged variant
`StatusEvent{state}` or `OutputEvent{payload}` (spec section 3). -/
inductive WEvent (α : Type) where
  | status (state : RunStateM)
  | output (payload : α)
  deriving DecidableEq

/-- Modelled from the spec: outcome of one stage-handler invocation through
its `RunContext` — forward one successor envelope, record the terminal
payload, or fail without calling either primitive (spec sections 4.2, 6, 9:
`Outcome = Forward(envelope) | Terminate(payload)`, plus the fault case). -/
inductive HAction (α : Type) where
  | emit (env : α)
  | complete (payload : α)
  | fault
  deriving DecidableEq

/-- Modelled from the spec: a validated Graph at run time — stages (id plus
handler), directed edges, designated entry stage (spec section 3). -/
structure SpecGraph (α : Type) where
  stages : List (String × (α → HAction α))
  edges : List (String × String)
  entry : String

/-- Edge targets whose source is `sid` (spec section 4.2 step 3: `emit`
enqueues to each edge whose source is this stage). -/
def successors (g : SpecGraph α) (sid : String) : List String :=
  (g.edges.filter (fun e => e.1 == sid)).map (fun e => e.2)

def findHandler (g : SpecGraph α) (sid : String) : Option (α → HAction α) :=
  (g.stages.find? (fun p => p.1 == sid)).map (fun p => p.2)

/-- Terminal outcome of a Run (spec section 3: terminal output present iff
`COMPLETED`). -/
inductive RunRes (α : Type) where
  | completed (payload : α)
  | failed
  deriving DecidableEq

/-- Modelled from the spec: the FIFO work-queue scheduler (spec section 4.2).
Dequeues `(stage id, envelope)` pairs in order; `emit` appends one queue entry
per outgoing edge, `complete` records the terminal output and ends the Run,
a fault (or a run-time graph violation such as dispatching to an unknown
stage, or the queue draining with no terminal output — a `ProtocolViolation`,
spec section 7) ends the Run as `FAILED`.  The second component of the result
is the trace of handler invocations, in dispatch order.  `fuel` bounds the
number of dispatches; `none` means the bound was exhausted. -/
def runQueue (g : SpecGraph α) :
    Nat → List (String × α) → List String → Option (RunRes α × List String)
  | _, [], tr => some (.failed, tr)
  | 0, _ :: _, _ => none
  | fuel + 1, (sid, env) :: rest, tr =>
      match findHandler g sid with
      | none => some (.failed, tr)
      | some h =>
          match h env with
          | .emit e2 =>
              runQueue g fuel (rest ++ (successors g sid).map (fun t => (t, e2)))
                (tr ++ [sid])
          | .complete p => some (.completed p, tr ++ [sid])
          | .fault => some (.failed, tr ++ [sid])

/-- Modelled from the spec: the Event Stream of a terminated Run (spec
section 4.3): it starts with `StatusEvent{RUNNING}` and ends with
`StatusEvent{COMPLETED}` immediately followed by one `OutputEvent`, or with
`StatusEvent{FAILED}` and no `OutputEvent`. -/
def eventsOf (r : RunRes α) : List (WEvent α) :=
  match r with
  | .completed p => [.status .running, .status .completed, .output p]
  | .failed => [.status .running, .status .failed]

/-- Modelled from the spec: `workflow.run_stream(input)` — seed the FIFO queue
with `(entry stage, initial envelope)`, drive the Run to its terminal state,
deliver the event stream. -/
def runEvents (g : SpecGraph α) (input : α) (fuel : Nat) :
    Option (List (WEvent α)) :=
  (runQueue g fuel [(g.entry, input)] []).map (fun r => eventsOf r.1)

/-- Trace of handler invocations of a Run, in dispatch order. -/
def runTrace (g : SpecGraph α) (input : α) (fuel : Nat) :
    Option (List String) :=
  (runQueue g fuel [(g.entry, input)] []).map (fun r => r.2)

def terminalEvent? : WEvent α → Bool
  | .status .completed => true
  | .status .failed => true
  | _ => false

def outputEvent? : WEvent α → Bool
  | .output _ => true
  | _ => false

def outputData : WEvent α → Option α
  | .output p => some p
  | _ => none

/-- The event-consuming loop of `run_fraud_detection_workflow` (workflow.py
lines 588-593): `final_result` starts as `None` and is overwritten by the
payload of each `WorkflowOutputEvent` observed on the stream. -/
def consumeStream (events : List (WEvent α)) : Option α :=
  events.foldl (fun acc e => match e with | .output p => some p | _ => acc) none

/-- `run_fraud_detection_workflow` (workflow.py lines 508-593), reduced to the
part that determines its return value: the consuming loop over the event
stream of the fraud-detection Run.  Agent construction, workflow building and
telemetry do not affect the returned value. -/
def run_fraud_detection_workflow (events : List (WEvent FraudAlertResponse)) :
    Option FraudAlertResponse :=
  consumeStream events

theorem consumeStream_append_single (evs : List (WEvent α)) (e : WEvent α) :
    consumeStream (evs ++ [e]) =
      match outputData e with
      | some p => some p
      | none => consumeStream evs := by
  unfold consumeStream
  rw [List.foldl_append]
  cases e <;> rfl

/-- The consuming loop returns the payload of the last output event,
`none` when the stream has no output event. -/
theorem consumeStream_eq_getLast (evs : List (WEvent α)) :
    consumeStream evs = (evs.filterMap outputData).getLast? := by
  induction evs using List.reverseRecOn with
  | nil => rfl
  | append_singleton l e ih =>
      rw [consumeStream_append_single, List.filterMap_append]
      cases e with
      | status s =>
          simp [outputData, ih]
      | output p =>
          simp [outputData]

/-! ## Classification lemmas for the derived risk fields -/

theorem risk_level_of_spec (s : Int) :
    (risk_level_of s = "HIGH" ↔ 75 ≤ s) ∧
    (risk_level_of s = "MEDIUM" ↔ 40 ≤ s ∧ s < 75) ∧
    (risk_level_of s = "LOW" ↔ s < 40) := by
  unfold risk_level_of
  by_cases h75 : s ≥ 75
  · rw [if_pos h75]
    refine ⟨?_, ?_, ?_⟩ <;> constructor <;> intro h <;>
      first | rfl | omega | exact absurd h (by decide) | (exfalso; omega)
  · rw [if_neg h75]
    by_cases h40 : s ≥ 40
    · rw [if_pos h40]
      refine ⟨?_, ?_, ?_⟩ <;> constructor <;> intro h <;>
        first | rfl | omega | exact absurd h (by decide) | (exfalso; omega)
    · rw [if_neg h40]
      refine ⟨?_, ?_, ?_⟩ <;> constructor <;> intro h <;>
        first | rfl | omega | exact absurd h (by decide) | (exfalso; omega)

theorem risk_level_of_mem (s : Int) :
    risk_level_of s = "HIGH" ∨ risk_level_of s = "MEDIUM" ∨
      risk_level_of s = "LOW" := by
  unfold risk_level_of
  split_ifs <;> simp

theorem recommendation_of_spec (lvl : String)
    (hmem : lvl = "HIGH" ∨ lvl = "MEDIUM" ∨ lvl = "LOW") :
    (recommendation_of lvl = "BLOCK" ↔ lvl = "HIGH") ∧
    (recommendation_of lvl = "INVESTIGATE" ↔ lvl = "MEDIUM") ∧
    (recommendation_of lvl = "ALLOW" ↔ lvl = "LOW") := by
  rcases hmem with h | h | h <;> subst h <;> decide

theorem severity_of_spec (s : Int) :
    (severity_of s = "CRITICAL" ↔ 90 ≤ s) ∧
    (severity_of s = "HIGH" ↔ 75 ≤ s ∧ s < 90) ∧
    (severity_of s = "MEDIUM" ↔ 50 ≤ s ∧ s < 75) ∧
    (severity_of s = "LOW" ↔ s < 50) := by
  unfold severity_of
  by_cases h90 : s ≥ 90
  · rw [if_pos h90]
    refine ⟨?_, ?_, ?_, ?_⟩ <;> constructor <;> intro h <;>
      first | rfl | omega | exact absurd h (by decide) | (exfalso; omega)
  · rw [if_neg h90]
    by_cases h75 : s ≥ 75
    · rw [if_pos h75]
      refine ⟨?_, ?_, ?_, ?_⟩ <;> constructor <;> intro h <;>
        first | rfl | omega | exact absurd h (by decide) | (exfalso; omega)
    · rw [if_neg h75]
      by_cases h50 : s ≥ 50
      · rw [if_pos h50]
        refine ⟨?_, ?_, ?_, ?_⟩ <;> constructor <;> intro h <;>
          first | rfl | omega | exact absurd h (by decide) | (exfalso; omega)
      · rw [if_neg h50]
        refine ⟨?_, ?_, ?_, ?_⟩ <;> constructor <;> intro h <;>
          first | rfl | omega | exact absurd h (by decide) | (exfalso; omega)

/-! ## Claim C2 -/

/-- C2: every invocation of `CustomerDataAgentExecutor.handle` and
`RiskAnalyserAgentExecutor.handle` performs exactly one context call — never
zero, never two.  On the normal path it forwards exactly one successor
envelope with `status = "SUCCESS"`; on the exception path it absorbs the
failure and forwards exactly one successor envelope with `status = "ERROR"`
whose message contains the exception text.  (The terminal
`FraudAlertAgentExecutor.handle` likewise performs exactly one `yield_output`
per invocation.) -/
theorem claim_C2_exactly_one_context_call
    (request : AnalysisRequest) (run : AgentRun)
    (customer_response : CustomerDataResponse)
    (rrun : Except String (String × RegexMatches))
    (risk_response : RiskAnalysisResponse) (frun : AgentRun) :
    (CustomerDataAgentExecutor.handle request run).length = 1 ∧
    (RiskAnalyserAgentExecutor.handle customer_response rrun).length = 1 ∧
    (FraudAlertAgentExecutor.handle risk_response frun).length = 1 ∧
    (∀ a, run = .ok a →
      ∃ resp, CustomerDataAgentExecutor.handle request run =
        [.sendMessage resp] ∧ resp.status = "SUCCESS") ∧
    (∀ e, run = .error e →
      ∃ resp, CustomerDataAgentExecutor.handle request run =
        [.sendMessage resp] ∧ resp.status = "ERROR" ∧
        strContains resp.analysis e = true) ∧
    (∀ a, rrun = .ok a →
      ∃ resp, RiskAnalyserAgentExecutor.handle customer_response rrun =
        [.sendMessage resp] ∧ resp.status = "SUCCESS") ∧
    (∀ e, rrun = .error e →
      ∃ resp, RiskAnalyserAgentExecutor.handle customer_response rrun =
        [.sendMessage resp] ∧ resp.status = "ERROR" ∧
        strContains resp.risk_analysis e = true) := by
  refine ⟨?_, ?_, ?_, ?_, ?_, ?_, ?_⟩
  · cases run <;> rfl
  · rcases rrun with e | ⟨a, rm⟩ <;> rfl
  · cases frun <;> rfl
  · rintro a rfl
    exact ⟨_, rfl, rfl⟩
  · rintro e rfl
    exact ⟨_, rfl, rfl, strContains_error_message e⟩
  · rintro ⟨a, rm⟩ rfl
    exact ⟨_, rfl, rfl⟩
  · rintro e rfl
    exact ⟨_, rfl, rfl, strContains_error_message e⟩

def w2request : AnalysisRequest :=
  { transaction_id := "TX1001", customer_id := "CUST1001"
    amount := some 5200, currency := some "USD" }

def w2customer : CustomerDataResponse :=
  { customer_id := "CUST1001", transaction_id := "TX1001"
    analysis := "ok", status := "SUCCESS"
    amount := some 5200, currency := some "USD" }

def w2risk : RiskAnalysisResponse :=
  { transaction_id := "TX1001", customer_id := "CUST1001"
    risk_analysis := "ok", risk_score := 55, risk_level := "MEDIUM"
    recommendation := "INVESTIGATE", status := "SUCCESS"
    amount := some 5200, currency := some "USD", model_confidence := none }

theorem claim_C2_witness :
    ∃ resp, CustomerDataAgentExecutor.handle w2request (.error "boom") =
      [.sendMessage resp] ∧ resp.status = "ERROR" ∧
      strContains resp.analysis "boom" = true := by
  have h := claim_C2_exactly_one_context_call w2request (.error "boom")
    w2customer (.error "boom") w2risk (.error "boom")
  exact h.2.2.2.2.1 "boom" rfl

/-! ## Claim C8 -/

/-- C8: on the success path of `RiskAnalyserAgentExecutor.handle` the emitted
`RiskAnalysisResponse` always has `risk_score` in `[0, 100]`; a regex capture
is used only when it lies in `[0, 100]`, otherwise the keyword fallback yields
85, 55, 25 or the default 50; `risk_level` is `"HIGH"` iff the score is at
least 75, `"MEDIUM"` iff it is in `[40, 75)`, `"LOW"` otherwise; and
`recommendation` is `"BLOCK"`/`"INVESTIGATE"`/`"ALLOW"` exactly for
`"HIGH"`/`"MEDIUM"`/`"LOW"`. -/
theorem claim_C8_risk_response_classification
    (customer_response : CustomerDataResponse) (reply : String)
    (rm : RegexMatches) :
    ∃ resp, RiskAnalyserAgentExecutor.handle customer_response
        (.ok (reply, rm)) = [.sendMessage resp] ∧
      resp.risk_analysis = reply ∧
      0 ≤ resp.risk_score ∧ resp.risk_score ≤ 100 ∧
      (∀ s, firstAcceptedScore rm.scoreCaptures = some s →
        resp.risk_score = (s : Int) ∧ s ≤ 100) ∧
      (firstAcceptedScore rm.scoreCaptures = none →
        resp.risk_score =
          (if rm.hasHighKw then 85 else if rm.hasMediumKw then 55
            else if rm.hasLowKw then 25 else (50 : Int))) ∧
      (resp.risk_level = "HIGH" ↔ 75 ≤ resp.risk_score) ∧
      (resp.risk_level = "MEDIUM" ↔ 40 ≤ resp.risk_score ∧ resp.risk_score < 75) ∧
      (resp.risk_level = "LOW" ↔ resp.risk_score < 40) ∧
      (resp.recommendation = "BLOCK" ↔ resp.risk_level = "HIGH") ∧
      (resp.recommendation = "INVESTIGATE" ↔ resp.risk_level = "MEDIUM") ∧
      (resp.recommendation = "ALLOW" ↔ resp.risk_level = "LOW") := by
  refine ⟨_, rfl, rfl, ?_, ?_, ?_, ?_, ?_, ?_, ?_, ?_, ?_, ?_⟩
  · exact Int.natCast_nonneg _
  · show ((parseRiskScore rm : Nat) : Int) ≤ 100
    exact_mod_cast parseRiskScore_le rm
  · intro s hs
    exact ⟨by simp [parseRiskScore, hs], firstAcceptedScore_le _ _ hs⟩
  · intro hnone
    show ((parseRiskScore rm : Nat) : Int) = _
    rw [parseRiskScore, hnone]
    unfold fallbackScore
    by_cases h1 : rm.hasHighKw <;> by_cases h2 : rm.hasMediumKw <;>
      by_cases h3 : rm.hasLowKw <;> simp [h1, h2, h3]
  · exact (risk_level_of_spec _).1
  · exact (risk_level_of_spec _).2.1
  · exact (risk_level_of_spec _).2.2
  · exact (recommendation_of_spec _ (risk_level_of_mem _)).1
  · exact (recommendation_of_spec _ (risk_level_of_mem _)).2.1
  · exact (recommendation_of_spec _ (risk_level_of_mem _)).2.2

def w8matches : RegexMatches :=
  { scoreCaptures := [some 842, some 42], hasHighKw := true
    hasMediumKw := false, hasLowKw := false }

theorem claim_C8_witness :
    ∃ resp, RiskAnalyserAgentExecutor.handle w2customer
        (.ok ("risk score: 42", w8matches)) = [.sendMessage resp] ∧
      resp.risk_score = (42 : Int) ∧ resp.risk_score ≤ 100 := by
  obtain ⟨resp, hr, _, _, h100, hsome, _⟩ :=
    claim_C8_risk_response_classification w2customer "risk score: 42" w8matches
  exact ⟨resp, hr, (hsome 42 rfl).1, h100⟩

/-! ## Claim C9 -/

/-- C9: on its success path `FraudAlertAgentExecutor.handle` yields exactly
one `FraudAlertResponse` whose `alert_created` is true iff the lowered reply
contains `"alert created"` or the incoming risk score is at least 40, and the
severity classification is `"CRITICAL"` iff the score is at least 90,
`"HIGH"` iff it is in `[75, 90)`, `"MEDIUM"` iff in `[50, 75)`, `"LOW"`
otherwise; on the exception path it yields exactly one response with
`alert_created = false` and `workflow_status = "ERROR"`. -/
theorem claim_C9_fraud_alert_output (risk_response : RiskAnalysisResponse) :
    (∀ reply, ∃ resp,
      FraudAlertAgentExecutor.handle risk_response (.ok reply) =
        [.yieldOutput resp] ∧
      resp.workflow_status = "SUCCESS" ∧
      (resp.alert_created = true ↔
        (strContains reply.toLower "alert created" = true ∨
          40 ≤ risk_response.risk_score)) ∧
      (severity_of risk_response.risk_score = "CRITICAL" ↔
        90 ≤ risk_response.risk_score) ∧
      (severity_of risk_response.risk_score = "HIGH" ↔
        75 ≤ risk_response.risk_score ∧ risk_response.risk_score < 90) ∧
      (severity_of risk_response.risk_score = "MEDIUM" ↔
        50 ≤ risk_response.risk_score ∧ risk_response.risk_score < 75) ∧
      (severity_of risk_response.risk_score = "LOW" ↔
        risk_response.risk_score < 50)) ∧
    (∀ e, ∃ resp,
      FraudAlertAgentExecutor.handle risk_response (.error e) =
        [.yieldOutput resp] ∧
      resp.alert_created = false ∧ resp.workflow_status = "ERROR") := by
  constructor
  · intro reply
    refine ⟨_, rfl, rfl, ?_, (severity_of_spec _).1, (severity_of_spec _).2.1,
      (severity_of_spec _).2.2.1, (severity_of_spec _).2.2.2⟩
    show FraudAlertAgentExecutor.alert_created_of reply
      risk_response.risk_score = true ↔ _
    unfold FraudAlertAgentExecutor.alert_created_of
    simp [Bool.or_eq_true, decide_eq_true_iff]
  · intro e
    exact ⟨_, rfl, rfl, rfl⟩

/-! ## Claim C10 -/

/-- C10: `run_fraud_detection_workflow` returns the payload of the last
`WorkflowOutputEvent` observed on the event stream, and `none` when the
stream contains no output event at all (e.g. a `FAILED` run). -/
theorem claim_C10_returns_last_output
    (events : List (WEvent FraudAlertResponse)) :
    run_fraud_detection_workflow events =
      (events.filterMap outputData).getLast? ∧
    (run_fraud_detection_workflow events = none ↔
      ∀ e ∈ events, outputData e = none) := by
  have h := consumeStream_eq_getLast events
  refine ⟨h, ?_⟩
  rw [show run_fraud_detection_workflow events = consumeStream events from rfl,
    h, List.getLast?_eq_none_iff, List.filterMap_eq_nil_iff]

/-! ## Claim C1 -/

/-- C1: every terminated Run delivers an event stream with exactly one
terminal event — `StatusEvent{COMPLETED}` immediately followed by exactly one
`OutputEvent`, or `StatusEvent{FAILED}` with no `OutputEvent` — never zero
and never more than one; consequently the consuming loop of
`run_fraud_detection_workflow` observes at most one output event and returns
its payload as the workflow result. -/
theorem claim_C1_exactly_one_terminal {α : Type} (g : SpecGraph α) (x : α)
    (fuel : Nat) (ev : List (WEvent α)) (h : runEvents g x fuel = some ev) :
    ev.countP terminalEvent? = 1 ∧
    ev.countP outputEvent? ≤ 1 ∧
    ((∃ p, ev = [.status .running, .status .completed, .output p] ∧
        ev.countP outputEvent? = 1 ∧ consumeStream ev = some p) ∨
      (ev = [.status .running, .status .failed] ∧
        ev.countP outputEvent? = 0 ∧ consumeStream ev = none)) := by
  unfold runEvents at h
  cases hq : runQueue g fuel [(g.entry, x)] [] with
  | none => rw [hq] at h; exact absurd h (by simp)
  | some rt =>
      obtain ⟨r, tr⟩ := rt
      rw [hq] at h
      replace h : eventsOf r = ev := by simpa using h
      cases r with
      | completed p =>
          subst h
          refine ⟨?_, ?_, Or.inl ⟨p, rfl, ?_, rfl⟩⟩ <;>
            simp [eventsOf, List.countP_cons, List.countP_nil,
              terminalEvent?, outputEvent?]
      | failed =>
          subst h
          refine ⟨?_, ?_, Or.inr ⟨rfl, ?_, rfl⟩⟩ <;>
            simp [eventsOf, List.countP_cons, List.countP_nil,
              terminalEvent?, outputEvent?]

/-- The spec's example scenario (section 8): a 3-stage linear graph `A→B→C`
where `A` emits 1, `B` emits 2 and `C` completes with 3. -/
def specExampleGraph : SpecGraph Nat :=
  { stages := [("A", fun _ => .emit 1), ("B", fun _ => .emit 2),
      ("C", fun _ => .complete 3)]
    edges := [("A", "B"), ("B", "C")]
    entry := "A" }

def specExampleEvents : List (WEvent Nat) :=
  [.status .running, .status .completed, .output 3]

theorem claim_C1_witness :
    runEvents specExampleGraph 0 3 = some specExampleEvents ∧
    (specExampleEvents.countP terminalEvent? = 1 ∧
      specExampleEvents.countP outputEvent? ≤ 1 ∧
      ((∃ p, specExampleEvents =
          [.status .running, .status .completed, .output p] ∧
          specExampleEvents.countP outputEvent? = 1 ∧
          consumeStream specExampleEvents = some p) ∨
        (specExampleEvents = [.status .running, .status .failed] ∧
          specExampleEvents.countP outputEvent? = 0 ∧
          consumeStream specExampleEvents = none))) :=
  ⟨rfl, claim_C1_exactly_one_terminal specExampleGraph 0 3 specExampleEvents rfl⟩

/-! ## Claim C4 -/

/-- A linear three-stage graph: the first two stages forward one successor
envelope each, the third records the terminal output (matching both pipelines
of the repository, whose handlers always perform exactly one context call,
see C2). -/
def linChain3 {α : Type} (n1 n2 n3 : String) (f1 f2 f3 : α → α) :
    SpecGraph α :=
  { stages := [(n1, fun a => HAction.emit (f1 a)),
      (n2, fun a => HAction.emit (f2 a)),
      (n3, fun a => HAction.complete (f3 a))]
    edges := [(n1, n2), (n2, n3)]
    entry := n1 }

/-- C4: for both three-stage chains of the repository, the handlers are
dispatched in the deterministic linear order of the graph's edges starting at
the entry stage, exactly once per stage, and the terminal payload is the
composition of the three stage transformations.  The trace lists handler
invocations in dispatch order, so stage `i` runs strictly after stage `i-1`
emitted its envelope. -/
theorem claim_C4_linear_dispatch_order {α β : Type} (f1 f2 f3 : α → α)
    (g1 g2 g3 : β → β) (x : α) (y : β) :
    runQueue (linChain3 "CustomerDataAgent" "RiskAnalyserAgent"
        "FraudAlertAgent" f1 f2 f3) 3 [("CustomerDataAgent", x)] [] =
      some (.completed (f3 (f2 (f1 x))),
        ["CustomerDataAgent", "RiskAnalyserAgent", "FraudAlertAgent"]) ∧
    runQueue (linChain3 "ResearcherAgentV2" "WriterAgentV2"
        "ReviewerAgentV2" g1 g2 g3) 3 [("ResearcherAgentV2", y)] [] =
      some (.completed (g3 (g2 (g1 y))),
        ["ResearcherAgentV2", "WriterAgentV2", "ReviewerAgentV2"]) ∧
    (["CustomerDataAgent", "RiskAnalyserAgent",
        "FraudAlertAgent"].count "CustomerDataAgent" = 1 ∧
      ["CustomerDataAgent", "RiskAnalyserAgent",
        "FraudAlertAgent"].count "RiskAnalyserAgent" = 1 ∧
      ["CustomerDataAgent", "RiskAnalyserAgent",
        "FraudAlertAgent"].count "FraudAlertAgent" = 1) ∧
    (["CustomerDataAgent", "RiskAnalyserAgent",
        "FraudAlertAgent"].indexOf "CustomerDataAgent" <
        ["CustomerDataAgent", "RiskAnalyserAgent",
          "FraudAlertAgent"].indexOf "RiskAnalyserAgent" ∧
      ["CustomerDataAgent", "RiskAnalyserAgent",
        "FraudAlertAgent"].indexOf "RiskAnalyserAgent" <
        ["CustomerDataAgent", "RiskAnalyserAgent",
          "FraudAlertAgent"].indexOf "FraudAlertAgent") := by
  refine ⟨rfl, rfl, ⟨?_, ?_, ?_⟩, ?_, ?_⟩ <;> decide

/-! ## The Graph Builder (claim C5)

Modelled from the spec: `WorkflowBuilder` and its `build()` validation (spec
sections 4.1 and 8).  Reachability is computed by saturating the set of
stages reachable from the entry; the saturation provably stabilizes within
`edges.length + 1` rounds and coincides with the inductive reachability
relation `Reaches`. -/

def memB (s : String) (l : List String) : Bool :=
  l.any (fun x => x == s)

theorem memB_iff (s : String) (l : List String) : memB s l = true ↔ s ∈ l := by
  constructor
  · intro h
    obtain ⟨x, hx, hxs⟩ := List.any_eq_true.1 h
    exact (beq_iff_eq.1 hxs) ▸ hx
  · intro h
    exact List.any_eq_true.2 ⟨s, h, beq_iff_eq.2 rfl⟩

def dedupB : List String → List String
  | [] => []
  | x :: xs => if memB x xs then dedupB xs else x :: dedupB xs

theorem mem_dedupB (s : String) (l : List String) : s ∈ dedupB l ↔ s ∈ l := by
  induction l with
  | nil => simp [dedupB]
  | cons x xs ih =>
      by_cases hx : memB x xs
      · rw [dedupB, if_pos hx]
        rw [ih]
        constructor
        · exact fun h => List.mem_cons_of_mem _ h
        · intro h
          rcases List.mem_cons.1 h with h | h
          · exact h ▸ (memB_iff _ _).1 hx
          · exact h
      · rw [dedupB, if_neg hx]
        simp [ih]

theorem nodup_dedupB (l : List String) : (dedupB l).Nodup := by
  induction l with
  | nil => simp [dedupB]
  | cons x xs ih =>
      by_cases hx : memB x xs
      · rw [dedupB, if_pos hx]; exact ih
      · rw [dedupB, if_neg hx]
        refine List.nodup_cons.2 ⟨?_, ih⟩
        intro hmem
        exact hx ((memB_iff _ _).2 ((mem_dedupB _ _).1 hmem))

/-- One saturation round: add every target of an edge whose source is already
reached and which is not yet present. -/
def reachStep (edges : List (String × String)) (r : List String) :
    List String :=
  r ++ dedupB (((edges.filter (fun e => memB e.1 r)).map (fun e => e.2)).filter
    (fun t => !memB t r))

def reachIter (edges : List (String × String)) (entry : String) :
    Nat → List String
  | 0 => [entry]
  | n + 1 => reachStep edges (reachIter edges entry n)

/-- The stages reachable from `entry` by following edges: the saturation
stabilizes within `edges.length + 1` rounds (proved below). -/
def reachableFrom (edges : List (String × String)) (entry : String) :
    List String :=
  reachIter edges entry (edges.length + 1)

/-- Reachability by following zero or more edges, as the spec states the
invariant (section 3: every non-entry stage is reachable from the entry
stage by following edges). -/
inductive Reaches (edges : List (String × String)) (entry : String) :
    String → Prop where
  | refl : Reaches edges entry entry
  | tail {b c : String} : Reaches edges entry b → (b, c) ∈ edges →
      Reaches edges entry c

theorem subset_reachStep (edges : List (String × String)) (r : List String) :
    r ⊆ reachStep edges r :=
  fun _ h => List.mem_append_left _ h

theorem reachIter_subset (edges : List (String × String)) (entry : String)
    {m n : Nat} (h : m ≤ n) :
    reachIter edges entry m ⊆ reachIter edges entry n := by
  induction n with
  | zero =>
      rw [Nat.le_zero.1 h]
      exact fun _ hs => hs
  | succ k ih =>
      rcases Nat.lt_or_ge m (k + 1) with hm | hm
      · intro s hs
        exact subset_reachStep edges _ (ih (by omega) hs)
      · rw [Nat.le_antisymm h hm]
        exact fun _ hs => hs

theorem mem_reachStep_of_edge {edges : List (String × String)}
    {r : List String} {b c : String} (hb : b ∈ r) (hedge : (b, c) ∈ edges) :
    c ∈ reachStep edges r := by
  by_cases hc : memB c r
  · exact List.mem_append_left _ ((memB_iff _ _).1 hc)
  · refine List.mem_append_right _ ((mem_dedupB _ _).2 ?_)
    refine List.mem_filter.2 ⟨?_, by simp [hc]⟩
    exact List.mem_map.2 ⟨(b, c),
      List.mem_filter.2 ⟨hedge, (memB_iff _ _).2 hb⟩, rfl⟩

theorem reaches_of_mem_reachIter (edges : List (String × String))
    (entry : String) :
    ∀ n s, s ∈ reachIter edges entry n → Reaches edges entry s := by
  intro n
  induction n with
  | zero =>
      intro s hs
      rw [List.mem_singleton.1 hs]
      exact .refl
  | succ k ih =>
      intro s hs
      rcases List.mem_append.1 hs with h | h
      · exact ih s h
      · have h' := (mem_dedupB _ _).1 h
        obtain ⟨hmap, _⟩ := List.mem_filter.1 h'
        obtain ⟨e, hefil, heq⟩ := List.mem_map.1 hmap
        obtain ⟨hedge, hsrc⟩ := List.mem_filter.1 hefil
        have hb := ih e.1 ((memB_iff _ _).1 hsrc)
        exact heq ▸ .tail hb (by rwa [← Prod.mk.eta (p := e)] at hedge)

theorem nodup_reachIter (edges : List (String × String)) (entry : String) :
    ∀ n, (reachIter edges entry n).Nodup := by
  intro n
  induction n with
  | zero => simp [reachIter]
  | succ k ih =>
      refine List.Nodup.append ih (nodup_dedupB _) ?_
      intro a ha hmem
      have h' := (mem_dedupB _ _).1 hmem
      obtain ⟨_, hfresh⟩ := List.mem_filter.1 h'
      rw [Bool.not_eq_true'] at hfresh
      exact absurd ((memB_iff _ _).2 ha) (by simp [hfresh])

theorem reachIter_subset_univ (edges : List (String × String))
    (entry : String) :
    ∀ n, reachIter edges entry n ⊆ entry :: edges.map (fun e => e.2) := by
  intro n
  induction n with
  | zero =>
      intro s hs
      rw [List.mem_singleton.1 hs]
      exact List.mem_cons_self _ _
  | succ k ih =>
      intro s hs
      rcases List.mem_append.1 hs with h | h
      · exact ih h
      · have h' := (mem_dedupB _ _).1 h
        obtain ⟨hmap, _⟩ := List.mem_filter.1 h'
        obtain ⟨e, hefil, heq⟩ := List.mem_map.1 hmap
        obtain ⟨hedge, _⟩ := List.mem_filter.1 hefil
        exact List.mem_cons_of_mem _ (List.mem_map.2 ⟨e, hedge, heq⟩)

theorem length_reachIter_le (edges : List (String × String)) (entry : String)
    (n : Nat) : (reachIter edges entry n).length ≤ edges.length + 1 := by
  have h := List.Subperm.length_le
    ((nodup_reachIter edges entry n).subperm (reachIter_subset_univ edges entry n))
  simpa using h

theorem append_eq_self_of_length (r d : List String)
    (h : (r ++ d).length = r.length) : r ++ d = r := by
  have hd : d.length = 0 := by
    rw [List.length_append] at h
    omega
  rw [List.length_eq_zero.1 hd, List.append_nil]

theorem reachStep_eq_of_length (edges : List (String × String))
    (r : List String) (h : (reachStep edges r).length = r.length) :
    reachStep edges r = r := by
  unfold reachStep at h ⊢
  exact append_eq_self_of_length _ _ h

theorem reachIter_stab (edges : List (String × String)) (entry : String)
    {n : Nat} (h : reachIter edges entry (n + 1) = reachIter edges entry n) :
    ∀ k, reachIter edges entry (n + k) = reachIter edges entry n := by
  intro k
  induction k with
  | zero => rfl
  | succ m ih =>
      have : n + (m + 1) = (n + m) + 1 := by omega
      rw [this]
      show reachStep edges (reachIter edges entry (n + m)) = _
      rw [ih]
      exact h

theorem exists_reach_fixpoint (edges : List (String × String))
    (entry : String) :
    ∃ n, n ≤ edges.length ∧
      reachIter edges entry (n + 1) = reachIter edges entry n := by
  by_contra hc
  push_neg at hc
  have hgrow : ∀ n, n ≤ edges.length + 1 →
      n + 1 ≤ (reachIter edges entry n).length := by
    intro n
    induction n with
    | zero => intro _; simp [reachIter]
    | succ m ih =>
        intro hm
        have hne := hc m (by omega)
        have hmono : (reachIter edges entry m).length ≤
            (reachIter edges entry (m + 1)).length := by
          show _ ≤ (reachStep edges (reachIter edges entry m)).length
          rw [reachStep, List.length_append]
          omega
        have hlt : (reachIter edges entry m).length <
            (reachIter edges entry (m + 1)).length := by
          rcases Nat.lt_or_ge (reachIter edges entry m).length
              (reachIter edges entry (m + 1)).length with h | h
          · exact h
          · exact absurd (reachStep_eq_of_length edges _
              (Nat.le_antisymm h hmono)) hne
        have := ih (by omega)
        omega
  have h1 := hgrow (edges.length + 1) (Nat.le_refl _)
  have h2 := length_reachIter_le edges entry (edges.length + 1)
  omega

theorem reachStep_reachableFrom (edges : List (String × String))
    (entry : String) :
    reachStep edges (reachableFrom edges entry) = reachableFrom edges entry := by
  obtain ⟨n, hn, hfix⟩ := exists_reach_fixpoint edges entry
  have hstab := reachIter_stab edges entry hfix
  have e1 : reachableFrom edges entry = reachIter edges entry n := by
    unfold reachableFrom
    rw [show edges.length + 1 = n + (edges.length + 1 - n) by omega]
    exact hstab _
  rw [e1]
  show reachIter edges entry (n + 1) = _
  exact hfix

theorem mem_reachableFrom_iff (edges : List (String × String))
    (entry s : String) :
    s ∈ reachableFrom edges entry ↔ Reaches edges entry s := by
  constructor
  · exact reaches_of_mem_reachIter edges entry _ s
  · intro h
    induction h with
    | refl =>
        exact reachIter_subset edges entry (Nat.zero_le _)
          (by simp [reachIter])
    | tail hb hedge ih =>
        rw [← reachStep_reachableFrom edges entry]
        exact mem_reachStep_of_edge ih hedge

/-- Modelled from the spec: the mutable Graph Builder accumulating stage ids,
edges and the entry designation (spec section 4.1).  Only the stage id is
relevant to `build()` validation; the executor factory registered alongside
it is modelled separately for the run-time claims. -/
structure GraphBuilder where
  stages : List String
  edges : List (String × String)
  entry : Option String
  deriving DecidableEq, Repr

/-- `WorkflowBuilder()`: the fresh builder. -/
def GraphBuilder.empty : GraphBuilder :=
  { stages := [], edges := [], entry := none }

/-- `register_executor(factory, name)`: records a stage under `name`. -/
def GraphBuilder.register_executor (b : GraphBuilder) (id : String) :
    GraphBuilder :=
  { b with stages := b.stages ++ [id] }

/-- `add_edge(source, target)`: records a directed edge. -/
def GraphBuilder.add_edge (b : GraphBuilder) (source target : String) :
    GraphBuilder :=
  { b with edges := b.edges ++ [(source, target)] }

/-- `set_start_executor(id)`: designates the entry stage. -/
def GraphBuilder.set_start_executor (b : GraphBuilder) (id : String) :
    GraphBuilder :=
  { b with entry := some id }

/-- Modelled from the spec: the immutable, validated Graph produced by
`build()` (spec section 3). -/
structure BuiltGraph where
  stages : List String
  edges : List (String × String)
  entry : String
  deriving DecidableEq, Repr

/-- Modelled from the spec: `build()` validates that the entry stage exists
and is registered, that every edge endpoint is registered, and that every
stage is reachable from the entry (spec sections 4.1 and 8); on success it
returns the immutable Graph. -/
def GraphBuilder.build (b : GraphBuilder) : Except String BuiltGraph :=
  match b.entry with
  | none => .error "InvalidGraphError: no entry stage"
  | some ent =>
      if memB ent b.stages then
        if b.edges.all (fun e => memB e.1 b.stages && memB e.2 b.stages) then
          if b.stages.all (fun s => memB s (reachableFrom b.edges ent)) then
            .ok { stages := b.stages, edges := b.edges, entry := ent }
          else .error "InvalidGraphError: unreachable stage"
        else .error "InvalidGraphError: unregistered edge endpoint"
      else .error "InvalidGraphError: no entry stage"

theorem build_isOk_iff (b : GraphBuilder) :
    (b.build).isOk = true ↔
      ∃ ent, b.entry = some ent ∧ ent ∈ b.stages ∧
        (∀ e ∈ b.edges, e.1 ∈ b.stages ∧ e.2 ∈ b.stages) ∧
        (∀ s ∈ b.stages, Reaches b.edges ent s) := by
  unfold GraphBuilder.build
  cases hent : b.entry with
  | none =>
      dsimp only
      constructor
      · intro h
        exact Bool.noConfusion h
      · rintro ⟨ent, heq, _⟩
        exact Option.noConfusion heq
  | some ent =>
      dsimp only
      split_ifs with h1 h2 h3
      · constructor
        · intro _
          refine ⟨ent, rfl, (memB_iff _ _).1 h1, ?_, ?_⟩
          · intro e he
            have h := List.all_eq_true.1 h2 e he
            rw [Bool.and_eq_true] at h
            exact ⟨(memB_iff _ _).1 h.1, (memB_iff _ _).1 h.2⟩
          · intro s hs
            exact (mem_reachableFrom_iff _ _ _).1
              ((memB_iff _ _).1 (List.all_eq_true.1 h3 s hs))
        · intro _; rfl
      · constructor
        · intro h
          exact Bool.noConfusion h
        · rintro ⟨ent', heq, _, _, hreach⟩
          injection heq with heq'
          subst heq'
          exact absurd (List.all_eq_true.2 fun s hs => (memB_iff _ _).2
            ((mem_reachableFrom_iff _ _ _).2 (hreach s hs))) h3
      · constructor
        · intro h
          exact Bool.noConfusion h
        · rintro ⟨ent', heq, _, hedges, _⟩
          injection heq with heq'
          subst heq'
          refine absurd (List.all_eq_true.2 fun e he => ?_) h2
          rw [Bool.and_eq_true]
          obtain ⟨ha, hb⟩ := hedges e he
          exact ⟨(memB_iff _ _).2 ha, (memB_iff _ _).2 hb⟩
      · constructor
        · intro h
          exact Bool.noConfusion h
        · rintro ⟨ent', heq, hmem, _, _⟩
          injection heq with heq'
          subst heq'
          exact absurd ((memB_iff _ _).2 hmem) h1

/-- The builder chain of `run_fraud_detection_workflow` and `main`
(workflow.py lines 570-579 and 652-661). -/
def fraudBuilder : GraphBuilder :=
  (((((GraphBuilder.empty.register_executor
    "CustomerDataAgent").register_executor
    "RiskAnalyserAgent").register_executor
    "FraudAlertAgent").add_edge "CustomerDataAgent"
    "RiskAnalyserAgent").add_edge "RiskAnalyserAgent"
    "FraudAlertAgent").set_start_executor "CustomerDataAgent"

/-- The builder chain of `main` (sequential_agents.py lines 202-214). -/
def seqBuilder : GraphBuilder :=
  (((((GraphBuilder.empty.register_executor
    "ResearcherAgentV2").register_executor
    "WriterAgentV2").register_executor
    "ReviewerAgentV2").add_edge "ResearcherAgentV2"
    "WriterAgentV2").add_edge "WriterAgentV2"
    "ReviewerAgentV2").set_start_executor "ResearcherAgentV2"

/-- C5: `build()` succeeds exactly when the entry stage is designated and
registered, every edge endpoint is registered, and every stage is reachable
from the entry by following edges; in particular it succeeds for the two
three-stage linear graphs constructed in the repository. -/
theorem claim_C5_build_validation (b : GraphBuilder) :
    ((b.build).isOk = true ↔
      ∃ ent, b.entry = some ent ∧ ent ∈ b.stages ∧
        (∀ e ∈ b.edges, e.1 ∈ b.stages ∧ e.2 ∈ b.stages) ∧
        (∀ s ∈ b.stages, Reaches b.edges ent s)) ∧
    (fraudBuilder.build).isOk = true ∧
    (seqBuilder.build).isOk = true :=
  ⟨build_isOk_iff b, by decide, by decide⟩

/-! ## Stateful stage instances across Runs (claims C6, C7)

Modelled from the spec: a stage is registered with a factory and its instance
is constructed lazily per Run (spec sections 3, 4.1, 4.2 step 2 and 9), so
stage state never flows from one Run into another.  The stateful variant of
the scheduler threads an instance map owned exclusively by the Run. -/

structure StageDef (σ α : Type) where
  factory : Unit → σ
  handler : σ → α → HAction α × σ

structure SpecGraphS (σ α : Type) where
  stages : List (String × StageDef σ α)
  edges : List (String × String)
  entry : String

def successorsS (g : SpecGraphS σ α) (sid : String) : List String :=
  (g.edges.filter (fun e => e.1 == sid)).map (fun e => e.2)

def updateInst : List (String × σ) → String → σ → List (String × σ)
  | [], sid, s => [(sid, s)]
  | (k, v) :: rest, sid, s =>
      if k == sid then (k, s) :: rest else (k, v) :: updateInst rest sid s

/-- Modelled from the spec: the FIFO scheduler threading the Run's private
instance map.  Step 2 of the algorithm (spec section 4.2): instantiate the
stage via its factory at first use within this Run, or reuse the instance if
already instantiated **this Run**. -/
def runQueueS (g : SpecGraphS σ α) :
    Nat → List (String × α) → List (String × σ) → List String →
      Option (RunRes α × List (String × σ) × List String)
  | _, [], insts, tr => some (.failed, insts, tr)
  | 0, _ :: _, _, _ => none
  | fuel + 1, (sid, env) :: rest, insts, tr =>
      match (g.stages.find? (fun p => p.1 == sid)).map (fun p => p.2) with
      | none => some (.failed, insts, tr)
      | some sd =>
          let s0 := match insts.find? (fun p => p.1 == sid) with
            | some p => p.2
            | none => sd.factory ()
          match sd.handler s0 env with
          | (.emit e2, s1) =>
              runQueueS g fuel
                (rest ++ (successorsS g sid).map (fun t => (t, e2)))
                (updateInst insts sid s1) (tr ++ [sid])
          | (.complete p, s1) =>
              some (.completed p, updateInst insts sid s1, tr ++ [sid])
          | (.fault, s1) =>
              some (.failed, updateInst insts sid s1, tr ++ [sid])

/-- Modelled from the spec: one Run of a built Graph.  The Run owns a fresh,
initially empty instance map: every stage instance it touches is constructed
by the registered factory during this Run, never inherited. -/
def runOnceS (g : SpecGraphS σ α) (fuel : Nat) (x : α) :
    Option (RunRes α × List (String × σ) × List String) :=
  runQueueS g fuel [(g.entry, x)] [] []

/-- Modelled from the spec: two successive Runs of the same built Graph.  The
Graph is shared read-only; each Run starts from its own empty instance map,
so the final instance states of the first Run are not an input of the
second. -/
def runTwiceS (g : SpecGraphS σ α) (fuel : Nat) (x1 x2 : α) :
    Option (RunRes α × List (String × σ) × List String) ×
      Option (RunRes α × List (String × σ) × List String) :=
  (runOnceS g fuel x1, runOnceS g fuel x2)

/-- Event streams of the two successive Runs. -/
def runTwiceEventsS (g : SpecGraphS σ α) (fuel : Nat) (x1 x2 : α) :
    Option (List (WEvent α)) × Option (List (WEvent α)) :=
  ((runTwiceS g fuel x1 x2).1.map (fun r => eventsOf r.1),
    (runTwiceS g fuel x1 x2).2.map (fun r => eventsOf r.1))

/-- Shape of an event: its status state, or `none` for an output event. -/
def eventShape : WEvent α → Option RunStateM
  | .status s => some s
  | .output _ => none

/-- C6: stage instances are constructed freshly by the registered factories
at each Run's start, so no stage state carries over between two successive
Runs of the same Graph: the outcome of either Run is unchanged when the other
Run's input — and hence everything the other Run's stage instances did — is
varied arbitrarily. -/
theorem claim_C6_fresh_instances_per_run (g : SpecGraphS σ α) (fuel : Nat)
    (x1 x1' x2 x2' : α) :
    runOnceS g fuel x2 = runQueueS g fuel [(g.entry, x2)] [] [] ∧
    (runTwiceS g fuel x1 x2).2 = (runTwiceS g fuel x1' x2).2 ∧
    (runTwiceS g fuel x1 x2).1 = (runTwiceS g fuel x1 x2').1 ∧
    (runTwiceS g fuel x1 x2).2 = runOnceS g fuel x2 :=
  ⟨rfl, rfl, rfl, rfl⟩

/-- C7: a built Graph is read-only and safely reusable — two Runs of the same
Graph with the same initial input (stages are deterministic functions) yield
identical event streams, in particular the same sequence of status states and
the same event count. -/
theorem claim_C7_idempotent_graph_reuse (g : SpecGraphS σ α) (fuel : Nat)
    (x : α) :
    (runTwiceEventsS g fuel x x).1 = (runTwiceEventsS g fuel x x).2 ∧
    Option.map (List.map eventShape) (runTwiceEventsS g fuel x x).1 =
      Option.map (List.map eventShape) (runTwiceEventsS g fuel x x).2 ∧
    Option.map List.length (runTwiceEventsS g fuel x x).1 =
      Option.map List.length (runTwiceEventsS g fuel x x).2 :=
  ⟨rfl, rfl, rfl⟩

/-! ## The sequential-agents handlers (claim C3) -/

/-- `ChatMessage` of `agent_framework`, reduced to the fields the handlers
touch. -/
structure ChatMessage where
  role : String
  text : String
  deriving DecidableEq, Repr

namespace ResearcherAgentV2Executor

/-- `ResearcherAgentV2Executor.handle` (sequential_agents.py lines 71-92):
wraps a single message into a list, runs the agent — whose reply
`response.messages` is the parameter `replyMessages` — extends the received
history with the reply and forwards the grown history.  The `print` calls
are side effects without influence on the emission. -/
def handle (message : ChatMessage ⊕ List ChatMessage)
    (replyMessages : List ChatMessage) :
    List (HandlerCall (List ChatMessage) Empty) :=
  match message with
  | .inl m => [.sendMessage ([m] ++ replyMessages)]
  | .inr ms => [.sendMessage (ms ++ replyMessages)]

end ResearcherAgentV2Executor

namespace WriterAgentV2Executor

/-- `WriterAgentV2Executor.handle` (sequential_agents.py lines 107-124). -/
def handle (messages : List ChatMessage) (replyMessages : List ChatMessage) :
    List (HandlerCall (List ChatMessage) Empty) :=
  [.sendMessage (messages ++ replyMessages)]

end WriterAgentV2Executor

namespace ReviewerAgentV2Executor

/-- `ReviewerAgentV2Executor.handle` (sequential_agents.py lines 139-156):
the terminal stage yields the full conversation. -/
def handle (messages : List ChatMessage) (replyMessages : List ChatMessage) :
    List (HandlerCall Empty (List ChatMessage)) :=
  [.yieldOutput (messages ++ replyMessages)]

end ReviewerAgentV2Executor

/-- Payload forwarded by a handler invocation whose single context call is
`send_message`. -/
def sentPayload : List (HandlerCall σ ω) → Option σ
  | [.sendMessage m] => some m
  | _ => none

/-- Payload recorded by a handler invocation whose single context call is
`yield_output`. -/
def yieldedPayload : List (HandlerCall σ ω) → Option ω
  | [.yieldOutput o] => some o
  | _ => none

/-- Terminal output of the three-stage sequential pipeline on initial message
`m0`, with the three agents' reply message lists as parameters; the stages
run in the pipeline order established in C4. -/
def terminalConversation (m0 : ChatMessage) (r1 r2 r3 : List ChatMessage) :
    Option (List ChatMessage) := do
  let s1 ← sentPayload (ResearcherAgentV2Executor.handle (.inl m0) r1)
  let s2 ← sentPayload (WriterAgentV2Executor.handle s1 r2)
  yieldedPayload (ReviewerAgentV2Executor.handle s2 r3)

def w3task : ChatMessage := { role := "user", text := "task" }

def w3msg (t : String) : ChatMessage := { role := "assistant", text := t }

/-- C3 counterexample: with all three stages executing and appending, a run
in which the researcher's agent reply consists of two messages (e.g. a tool
call plus the answer text, as `response.messages` may well be) produces a
terminal history of length 5, not "number of stages plus the initial input"
`3 + 1`. -/
theorem claim_C3_counterexample :
    terminalConversation w3task [w3msg "tool call", w3msg "research"]
        [w3msg "draft"] [w3msg "review"] =
      some [w3task, w3msg "tool call", w3msg "research", w3msg "draft",
        w3msg "review"] ∧
    Option.map List.length (terminalConversation w3task
        [w3msg "tool call", w3msg "research"] [w3msg "draft"]
        [w3msg "review"]) = some 5 ∧
    (5 : Nat) ≠ 3 + 1 :=
  ⟨rfl, rfl, by decide⟩

/-- C3 (amended): every stage forwards the received history unchanged as a
prefix followed by its own reply messages (append-only accumulation, never
replacement), and the terminal history length equals the initial input's
length plus the total number of reply messages the stages appended — which
equals the number of stages plus the initial input exactly when each stage's
agent reply is a single message. -/
theorem claim_C3_append_only_accumulation (m0 : ChatMessage)
    (ms r1 r2 r3 reply : List ChatMessage) :
    sentPayload (ResearcherAgentV2Executor.handle (.inr ms) reply) =
      some (ms ++ reply) ∧
    sentPayload (ResearcherAgentV2Executor.handle (.inl m0) reply) =
      some ([m0] ++ reply) ∧
    sentPayload (WriterAgentV2Executor.handle ms reply) = some (ms ++ reply) ∧
    yieldedPayload (ReviewerAgentV2Executor.handle ms reply) =
      some (ms ++ reply) ∧
    terminalConversation m0 r1 r2 r3 = some ([m0] ++ r1 ++ r2 ++ r3) ∧
    Option.map List.length (terminalConversation m0 r1 r2 r3) =
      some (1 + r1.length + r2.length + r3.length) ∧
    (r1.length = 1 → r2.length = 1 → r3.length = 1 →
      Option.map List.length (terminalConversation m0 r1 r2 r3) =
        some (3 + 1)) := by
  refine ⟨rfl, rfl, rfl, rfl, rfl, ?_, ?_⟩
  · show some (([m0] ++ r1 ++ r2 ++ r3).length) =
      some (1 + r1.length + r2.length + r3.length)
    congr 1
    simp only [List.length_append, List.length_singleton]
  · intro h1 h2 h3
    show some (([m0] ++ r1 ++ r2 ++ r3).length) = some (3 + 1)
    congr 1
    simp only [List.length_append, List.length_singleton, h1, h2, h3]

theorem claim_C3_witness :
    Option.map List.length (terminalConversation w3task [w3msg "research"]
        [w3msg "draft"] [w3msg "review"]) = some (3 + 1) :=
  (claim_C3_append_only_accumulation w3task [] [w3msg "research"]
    [w3msg "draft"] [w3msg "review"] []).2.2.2.2.2.2 rfl rfl rfl

end AgentsObs
